import Mathlib

/-!
Shallow embedding of `lasagne/updates.py`.

The module builds Theano update dictionaries: each update rule receives a
loss, the list `all_params` of shared parameter variables and
hyperparameters, obtains `all_grads = theano.grad(loss, all_params)` (one
gradient per parameter, same order — the gradient-provider contract), and
returns a list of `(shared-variable, new-expression)` pairs that a training
step applies simultaneously to the pre-step state.

Modelling choices:
* A returned update list is a `Plan`: a list of `(Target, α)` pairs. A
  `Target` names the shared variable being rebound — the i-th parameter,
  the i-th accumulator created by the rule, or adadelta's i-th delta
  accumulator. All rule arithmetic is elementwise, so one tensor element is
  modelled by one scalar of a field `α` (instantiated at `ℝ` in the
  theorems); `T.sqrt` is passed in as a function argument.
* The value paired with a target is the rule's expression evaluated on the
  pre-step state: parameters `all_params`, gradients `all_grads`, and the
  current values `accs` (and `acc_deltas`) of the accumulator variables the
  rule created (all zeros right after construction).
* The Python `for ... in zip(...)` loops appending to `updates` become
  structural recursion over the zipped lists, carrying the position index
  that identifies each shared variable.
* Accumulator creation `theano.shared(np.zeros(param_i.get_value().shape,
  dtype=theano.config.floatX))` is modelled at the array level by
  `NDArray` / `npZeros`, with the configured `floatX` dtype as a parameter.
* `norm_constraint` is modelled over rank-general tensors: a tensor of
  shape `s` maps each multi-index `Idx s` to a scalar, and
  `T.sum(..., axis=sum_over, keepdims=True)` at `idx` sums over all
  indices that agree with `idx` on the axes outside `sum_over`.
-/

namespace Lasagne

/-- Identity of a shared variable rebound by an update plan: the i-th
parameter of `all_params`, the i-th accumulator created by the rule, or
(for adadelta) the i-th delta accumulator. -/
inductive Target : Type where
  | param : ℕ → Target
  | acc : ℕ → Target
  | accDelta : ℕ → Target
deriving DecidableEq, Repr

/-- An update plan: the `updates` list of `(shared-variable, new-expression)`
pairs returned by a rule, with expressions evaluated on the pre-step state. -/
abbrev Plan (α : Type) := List (Target × α)

/-- Value a plan binds to target `t` (the expression paired with `t`),
or `none` when `t` is not a target of the plan. -/
def planValue {α : Type} (plan : Plan α) (t : Target) : Option α :=
  (plan.find? (fun e => decide (e.1 = t))).map Prod.snd

section UpdateRules

variable {α : Type} [Field α]

/-- Loop body of `sgd`, recursing over `zip(all_params, all_grads)` with the
position index: appends `(param_i, param_i - learning_rate * grad_i)`. -/
def sgdAux (learning_rate : α) : ℕ → List (α × α) → Plan α
  | _, [] => []
  | i, (p, g) :: rest =>
      (Target.param i, p - learning_rate * g) :: sgdAux learning_rate (i + 1) rest

/-- Embedding of `sgd(loss, all_params, learning_rate)`; `all_grads` stands
for `theano.grad(loss, all_params)`. -/
def sgd (learning_rate : α) (all_params all_grads : List α) : Plan α :=
  sgdAux learning_rate 0 (all_params.zip all_grads)

/-- Loop body of `momentum`: per parameter it appends `(mparam_i, v)` then
`(param_i, param_i + v)` with `v = momentum * mparam_i - learning_rate *
grad_i`; the third component of each triple is the pre-step value of the
`mparam_i` accumulator variable the rule created. -/
def momentumAux (learning_rate mom : α) : ℕ → List (α × α × α) → Plan α
  | _, [] => []
  | i, (p, g, m) :: rest =>
      let v := mom * m - learning_rate * g
      (Target.acc i, v) :: (Target.param i, p + v) ::
        momentumAux learning_rate mom (i + 1) rest

/-- Embedding of `momentum(loss, all_params, learning_rate, momentum=0.9)`;
`accs` are the pre-step values of the per-parameter accumulators. -/
def momentum (learning_rate mom : α) (all_params all_grads accs : List α) : Plan α :=
  momentumAux learning_rate mom 0 (all_params.zip (all_grads.zip accs))

/-- Loop body of `nesterov_momentum`: `v = momentum * mparam_i -
learning_rate * grad_i`, `w = param_i + momentum * v - learning_rate *
grad_i`; appends `(mparam_i, v)` then `(param_i, w)`. -/
def nesterov_momentumAux (learning_rate mom : α) : ℕ → List (α × α × α) → Plan α
  | _, [] => []
  | i, (p, g, m) :: rest =>
      let v := mom * m - learning_rate * g
      let w := p + mom * v - learning_rate * g
      (Target.acc i, v) :: (Target.param i, w) ::
        nesterov_momentumAux learning_rate mom (i + 1) rest

/-- Embedding of `nesterov_momentum(loss, all_params, learning_rate,
momentum=0.9)`. -/
def nesterov_momentum (learning_rate mom : α) (all_params all_grads accs : List α) :
    Plan α :=
  nesterov_momentumAux learning_rate mom 0 (all_params.zip (all_grads.zip accs))

/-- Loop body of `adagrad`: `acc_i_new = acc_i + grad_i**2`; appends
`(acc_i, acc_i_new)` then `(param_i, param_i - learning_rate * grad_i /
T.sqrt(acc_i_new + epsilon))`. -/
def adagradAux (sqrt : α → α) (learning_rate epsilon : α) : ℕ → List (α × α × α) → Plan α
  | _, [] => []
  | i, (p, g, a) :: rest =>
      let acc_new := a + g ^ 2
      (Target.acc i, acc_new) ::
        (Target.param i, p - learning_rate * g / sqrt (acc_new + epsilon)) ::
        adagradAux sqrt learning_rate epsilon (i + 1) rest

/-- Embedding of `adagrad(loss, all_params, learning_rate=1.0,
epsilon=1e-6)`; `accs` are the pre-step values of `all_accumulators`. -/
def adagrad (sqrt : α → α) (learning_rate epsilon : α)
    (all_params all_grads accs : List α) : Plan α :=
  adagradAux sqrt learning_rate epsilon 0 (all_params.zip (all_grads.zip accs))

/-- Loop body of `rmsprop`: `acc_i_new = rho * acc_i + (1 - rho) *
grad_i**2`; appends `(acc_i, acc_i_new)` then `(param_i, param_i -
learning_rate * grad_i / T.sqrt(acc_i_new + epsilon))`. -/
def rmspropAux (sqrt : α → α) (learning_rate rho epsilon : α) :
    ℕ → List (α × α × α) → Plan α
  | _, [] => []
  | i, (p, g, a) :: rest =>
      let acc_new := rho * a + (1 - rho) * g ^ 2
      (Target.acc i, acc_new) ::
        (Target.param i, p - learning_rate * g / sqrt (acc_new + epsilon)) ::
        rmspropAux sqrt learning_rate rho epsilon (i + 1) rest

/-- Embedding of `rmsprop(loss, all_params, learning_rate=1.0, rho=0.9,
epsilon=1e-6)`. -/
def rmsprop (sqrt : α → α) (learning_rate rho epsilon : α)
    (all_params all_grads accs : List α) : Plan α :=
  rmspropAux sqrt learning_rate rho epsilon 0 (all_params.zip (all_grads.zip accs))

/-- Loop body of `adadelta`: `acc_i_new = rho * acc_i + (1 - rho) *
grad_i**2`; `update_i = grad_i * T.sqrt(acc_delta_i + epsilon) /
T.sqrt(acc_i_new + epsilon)` (the old `acc_delta_i`, the new
`acc_i_new`); appends `(acc_i, acc_i_new)`, `(param_i, param_i -
learning_rate * update_i)`, `(acc_delta_i, rho * acc_delta_i + (1 - rho) *
update_i**2)` in this order. -/
def adadeltaAux (sqrt : α → α) (learning_rate rho epsilon : α) :
    ℕ → List (α × α × α × α) → Plan α
  | _, [] => []
  | i, (p, g, a, ad) :: rest =>
      let acc_new := rho * a + (1 - rho) * g ^ 2
      let update := g * sqrt (ad + epsilon) / sqrt (acc_new + epsilon)
      (Target.acc i, acc_new) ::
        (Target.param i, p - learning_rate * update) ::
        (Target.accDelta i, rho * ad + (1 - rho) * update ^ 2) ::
        adadeltaAux sqrt learning_rate rho epsilon (i + 1) rest

/-- Embedding of `adadelta(loss, all_params, learning_rate=1.0, rho=0.95,
epsilon=1e-6)`; `accs` and `acc_deltas` are the pre-step values of
`all_accumulators` and `all_delta_accumulators`. -/
def adadelta (sqrt : α → α) (learning_rate rho epsilon : α)
    (all_params all_grads accs acc_deltas : List α) : Plan α :=
  adadeltaAux sqrt learning_rate rho epsilon 0
    (all_params.zip (all_grads.zip (accs.zip acc_deltas)))

end UpdateRules

/-! Accumulator creation. Each stateful rule creates one shared variable per
parameter via `theano.shared(np.zeros(param.get_value().shape,
dtype=theano.config.floatX))`; `NDArray` models the numpy array such a
shared variable initially holds (shape, dtype tag, flattened entries). -/

/-- Model of a numpy array: shape, dtype tag, and flattened entries
(exact rationals, since only the zero values matter here). -/
structure NDArray where
  shape : List ℕ
  dtype : String
  data : List ℚ
deriving DecidableEq, Repr

/-- Number of entries of an array of the given shape. -/
def arraySize (shape : List ℕ) : ℕ := shape.foldr (· * ·) 1

/-- Model of `np.zeros(shape, dtype)`. -/
def npZeros (shape : List ℕ) (dtype : String) : NDArray :=
  { shape := shape, dtype := dtype, data := List.replicate (arraySize shape) 0 }

/-- The initial array of the accumulator a rule creates for one parameter:
`np.zeros(param.get_value().shape, dtype=theano.config.floatX)` where
`floatX` is the configured `theano.config.floatX`. -/
def initAccumulator (floatX : String) (param : NDArray) : NDArray :=
  npZeros param.shape floatX

/-- The `mparam_i` accumulators `momentum` creates, in loop order. -/
def momentumAccs (floatX : String) (all_params : List NDArray) : List NDArray :=
  all_params.map (initAccumulator floatX)

/-- The `mparam_i` accumulators `nesterov_momentum` creates, in loop order. -/
def nesterov_momentumAccs (floatX : String) (all_params : List NDArray) : List NDArray :=
  all_params.map (initAccumulator floatX)

/-- The `all_accumulators` list `adagrad` creates. -/
def adagradAccs (floatX : String) (all_params : List NDArray) : List NDArray :=
  all_params.map (initAccumulator floatX)

/-- The `all_accumulators` list `rmsprop` creates. -/
def rmspropAccs (floatX : String) (all_params : List NDArray) : List NDArray :=
  all_params.map (initAccumulator floatX)

/-- The `all_accumulators` list `adadelta` creates. -/
def adadeltaAccs (floatX : String) (all_params : List NDArray) : List NDArray :=
  all_params.map (initAccumulator floatX)

/-- The `all_delta_accumulators` list `adadelta` creates. -/
def adadeltaDeltaAccs (floatX : String) (all_params : List NDArray) : List NDArray :=
  all_params.map (initAccumulator floatX)

/-! Embedding of `norm_constraint(tensor_var, max_norm, norm_axes=None,
epsilon=1e-7)`. A tensor of shape `s` maps each multi-index to a scalar;
the arithmetic is kept polymorphic over a linear ordered field with
`T.sqrt` passed as a function argument. -/

/-- Axis-selection chain of `norm_constraint`: `tuple(norm_axes)` when
given, else `(0,)` for `ndim == 2`, `tuple(range(1, ndim))` for
`ndim in [3, 4, 5]`, else the `ValueError` with the message built by
`"Unsupported tensor dimensionality {}." "Must specify norm_axes".format(ndim)`
(adjacent Python string literals concatenate). -/
def sumOverFor (norm_axes : Option (List ℕ)) (ndim : ℕ) : Except String (List ℕ) :=
  match norm_axes with
  | some axes => .ok axes
  | none =>
      if ndim = 2 then .ok [0]
      else if ndim ∈ [3, 4, 5] then .ok (List.range' 1 (ndim - 1))
      else .error ("Unsupported tensor dimensionality " ++ toString ndim ++ "." ++
        "Must specify `norm_axes`")

/-- Multi-index into a tensor of shape `s`: one coordinate below `s.get i`
for each axis `i`. -/
abbrev Idx (s : List ℕ) : Type := ∀ i : Fin s.length, Fin (s.get i)

section NormConstraint

variable {α : Type} [LinearOrderedField α]

/-- Entry at `idx` of `T.sum(T.sqr(tensor_var), axis=sum_over,
keepdims=True)`: the sum of squared entries over all indices that agree
with `idx` on every axis outside `sum_over` (with `keepdims=True` the
result broadcasts back over the summed axes, so it is indexed by the full
`Idx s` and is constant along the axes in `sum_over`). -/
def sumSq (s : List ℕ) (tensor_var : Idx s → α) (sum_over : List ℕ) (idx : Idx s) : α :=
  ∑ j ∈ Finset.univ.filter
      (fun j : Idx s => ∀ i : Fin s.length, (i : ℕ) ∉ sum_over → j i = idx i),
    tensor_var j ^ 2

/-- Entry at `idx` of `norms = T.sqrt(T.sum(T.sqr(tensor_var),
axis=sum_over, keepdims=True))`. -/
def norms (sqrt : α → α) (s : List ℕ) (tensor_var : Idx s → α) (sum_over : List ℕ)
    (idx : Idx s) : α :=
  sqrt (sumSq s tensor_var sum_over idx)

/-- Model of `T.clip(x, min_v, max_v)`. -/
def clip (x min_v max_v : α) : α := min (max x min_v) max_v

/-- The value `norm_constraint` returns once `sum_over` is fixed:
`target_norms = T.clip(norms, 0, max_norm)`; `constrained_output =
tensor_var * (target_norms / (epsilon + norms))`, elementwise with `norms`
broadcast along the summed axes. -/
def constrainedOutput (sqrt : α → α) (s : List ℕ) (tensor_var : Idx s → α)
    (max_norm epsilon : α) (sum_over : List ℕ) : Idx s → α :=
  fun idx =>
    tensor_var idx *
      (clip (norms sqrt s tensor_var sum_over idx) 0 max_norm /
        (epsilon + norms sqrt s tensor_var sum_over idx))

/-- Embedding of `norm_constraint(tensor_var, max_norm, norm_axes=None,
epsilon=1e-7)`: `ndim = tensor_var.ndim` is the length of the shape;
the axis-selection chain either raises or yields `sum_over`, and the
result is the rescaled expression. -/
def norm_constraint (sqrt : α → α) (s : List ℕ) (tensor_var : Idx s → α)
    (max_norm : α) (norm_axes : Option (List ℕ)) (epsilon : α) :
    Except String (Idx s → α) :=
  match sumOverFor norm_axes s.length with
  | .error e => .error e
  | .ok sum_over => .ok (constrainedOutput sqrt s tensor_var max_norm epsilon sum_over)

end NormConstraint

/-! Lemmas about plans. -/

lemma planValue_nil {α : Type} (t : Target) : planValue ([] : Plan α) t = none := rfl

lemma planValue_cons {α : Type} (e : Target × α) (rest : Plan α) (t : Target) :
    planValue (e :: rest) t = if e.1 = t then some e.2 else planValue rest t := by
  by_cases h : e.1 = t <;> simp [planValue, List.find?_cons, h]

section SgdLemmas

variable {α : Type} [Field α]

lemma sgdAux_length (learning_rate : α) : ∀ (k : ℕ) (l : List (α × α)),
    (sgdAux learning_rate k l).length = l.length := by
  intro k l
  induction l generalizing k with
  | nil => rfl
  | cons hd tl ih => simpa [sgdAux] using ih (k + 1)

lemma sgdAux_planValue_param (learning_rate : α) :
    ∀ (k i : ℕ) (l : List (α × α)) (hi : i < l.length),
      planValue (sgdAux learning_rate k l) (Target.param (k + i))
        = some (l[i].1 - learning_rate * l[i].2) := by
  intro k i l
  induction l generalizing k i with
  | nil => intro hi; simp at hi
  | cons hd tl ih =>
      intro hi
      obtain ⟨p, g⟩ := hd
      cases i with
      | zero => simp [sgdAux, planValue_cons]
      | succ i =>
          have hne : Target.param k ≠ Target.param (k + (i + 1)) := by
            intro hcontra
            rw [Target.param.injEq] at hcontra
            omega
          have hk : k + (i + 1) = (k + 1) + i := by omega
          have hi' : i < tl.length := by simpa using Nat.lt_of_succ_lt_succ hi
          simp only [sgdAux, planValue_cons, if_neg hne]
          rw [hk, ih (k + 1) i hi']
          simp

lemma sgdAux_planValue_acc (learning_rate : α) : ∀ (k j : ℕ) (l : List (α × α)),
    planValue (sgdAux learning_rate k l) (Target.acc j) = none := by
  intro k j l
  induction l generalizing k with
  | nil => rfl
  | cons hd tl ih =>
      obtain ⟨p, g⟩ := hd
      simp [sgdAux, planValue_cons, ih (k + 1)]

lemma sgdAux_planValue_accDelta (learning_rate : α) : ∀ (k j : ℕ) (l : List (α × α)),
    planValue (sgdAux learning_rate k l) (Target.accDelta j) = none := by
  intro k j l
  induction l generalizing k with
  | nil => rfl
  | cons hd tl ih =>
      obtain ⟨p, g⟩ := hd
      simp [sgdAux, planValue_cons, ih (k + 1)]

lemma sgdAux_count_param (learning_rate : α) (j : ℕ) : ∀ (k : ℕ) (l : List (α × α)),
    ((sgdAux learning_rate k l).map Prod.fst).count (Target.param j)
      = if k ≤ j ∧ j < k + l.length then 1 else 0 := by
  intro k l
  induction l generalizing k with
  | nil =>
      simp only [sgdAux, List.map_nil, List.count_nil]
      split_ifs with hif
      · simp at hif; omega
      · rfl
  | cons hd tl ih =>
      obtain ⟨p, g⟩ := hd
      simp only [sgdAux, List.map_cons, List.count_cons, ih (k + 1), List.length_cons]
      split_ifs <;> first | rfl | omega | (simp_all; omega) | simp_all

end SgdLemmas

section MomentumLemmas

variable {α : Type} [Field α]

lemma momentumAux_length (learning_rate mom : α) : ∀ (k : ℕ) (l : List (α × α × α)),
    (momentumAux learning_rate mom k l).length = 2 * l.length := by
  intro k l
  induction l generalizing k with
  | nil => rfl
  | cons hd tl ih =>
      obtain ⟨p, g, m⟩ := hd
      simp only [momentumAux, List.length_cons, ih (k + 1)]
      omega

lemma momentumAux_planValue_acc (learning_rate mom : α) :
    ∀ (k i : ℕ) (l : List (α × α × α)) (hi : i < l.length),
      planValue (momentumAux learning_rate mom k l) (Target.acc (k + i))
        = some (mom * l[i].2.2 - learning_rate * l[i].2.1) := by
  intro k i l
  induction l generalizing k i with
  | nil => intro hi; simp at hi
  | cons hd tl ih =>
      intro hi
      obtain ⟨p, g, m⟩ := hd
      cases i with
      | zero => simp [momentumAux, planValue_cons]
      | succ i =>
          have hne : Target.acc k ≠ Target.acc (k + (i + 1)) := by
            intro hcontra; rw [Target.acc.injEq] at hcontra; omega
          have hne2 : Target.param k ≠ Target.acc (k + (i + 1)) := by simp
          have hk : k + (i + 1) = (k + 1) + i := by omega
          have hi' : i < tl.length := by simpa using Nat.lt_of_succ_lt_succ hi
          simp only [momentumAux, planValue_cons, if_neg hne, if_neg hne2]
          rw [hk, ih (k + 1) i hi']
          simp

lemma momentumAux_planValue_param (learning_rate mom : α) :
    ∀ (k i : ℕ) (l : List (α × α × α)) (hi : i < l.length),
      planValue (momentumAux learning_rate mom k l) (Target.param (k + i))
        = some (l[i].1 + (mom * l[i].2.2 - learning_rate * l[i].2.1)) := by
  intro k i l
  induction l generalizing k i with
  | nil => intro hi; simp at hi
  | cons hd tl ih =>
      intro hi
      obtain ⟨p, g, m⟩ := hd
      cases i with
      | zero => simp [momentumAux, planValue_cons]
      | succ i =>
          have hne : Target.acc k ≠ Target.param (k + (i + 1)) := by simp
          have hne2 : Target.param k ≠ Target.param (k + (i + 1)) := by
            intro hcontra; rw [Target.param.injEq] at hcontra; omega
          have hk : k + (i + 1) = (k + 1) + i := by omega
          have hi' : i < tl.length := by simpa using Nat.lt_of_succ_lt_succ hi
          simp only [momentumAux, planValue_cons, if_neg hne, if_neg hne2]
          rw [hk, ih (k + 1) i hi']
          simp

lemma momentumAux_count_param (learning_rate mom : α) (j : ℕ) :
    ∀ (k : ℕ) (l : List (α × α × α)),
      ((momentumAux learning_rate mom k l).map Prod.fst).count (Target.param j)
        = if k ≤ j ∧ j < k + l.length then 1 else 0 := by
  intro k l
  induction l generalizing k with
  | nil =>
      simp only [momentumAux, List.map_nil, List.count_nil]
      split_ifs with hif
      · simp at hif; omega
      · rfl
  | cons hd tl ih =>
      obtain ⟨p, g, m⟩ := hd
      simp only [momentumAux, List.map_cons, List.count_cons, ih (k + 1), List.length_cons]
      split_ifs <;> first | rfl | omega | (simp_all; omega) | simp_all

end MomentumLemmas

section NesterovLemmas

variable {α : Type} [Field α]

lemma nesterov_momentumAux_length (learning_rate mom : α) :
    ∀ (k : ℕ) (l : List (α × α × α)),
      (nesterov_momentumAux learning_rate mom k l).length = 2 * l.length := by
  intro k l
  induction l generalizing k with
  | nil => rfl
  | cons hd tl ih =>
      obtain ⟨p, g, m⟩ := hd
      simp only [nesterov_momentumAux, List.length_cons, ih (k + 1)]
      omega

lemma nesterov_momentumAux_planValue_acc (learning_rate mom : α) :
    ∀ (k i : ℕ) (l : List (α × α × α)) (hi : i < l.length),
      planValue (nesterov_momentumAux learning_rate mom k l) (Target.acc (k + i))
        = some (mom * l[i].2.2 - learning_rate * l[i].2.1) := by
  intro k i l
  induction l generalizing k i with
  | nil => intro hi; simp at hi
  | cons hd tl ih =>
      intro hi
      obtain ⟨p, g, m⟩ := hd
      cases i with
      | zero => simp [nesterov_momentumAux, planValue_cons]
      | succ i =>
          have hne : Target.acc k ≠ Target.acc (k + (i + 1)) := by
            intro hcontra; rw [Target.acc.injEq] at hcontra; omega
          have hne2 : Target.param k ≠ Target.acc (k + (i + 1)) := by simp
          have hk : k + (i + 1) = (k + 1) + i := by omega
          have hi' : i < tl.length := by simpa using Nat.lt_of_succ_lt_succ hi
          simp only [nesterov_momentumAux, planValue_cons, if_neg hne, if_neg hne2]
          rw [hk, ih (k + 1) i hi']
          simp

lemma nesterov_momentumAux_planValue_param (learning_rate mom : α) :
    ∀ (k i : ℕ) (l : List (α × α × α)) (hi : i < l.length),
      planValue (nesterov_momentumAux learning_rate mom k l) (Target.param (k + i))
        = some (l[i].1 + mom * (mom * l[i].2.2 - learning_rate * l[i].2.1)
            - learning_rate * l[i].2.1) := by
  intro k i l
  induction l generalizing k i with
  | nil => intro hi; simp at hi
  | cons hd tl ih =>
      intro hi
      obtain ⟨p, g, m⟩ := hd
      cases i with
      | zero => simp [nesterov_momentumAux, planValue_cons]
      | succ i =>
          have hne : Target.acc k ≠ Target.param (k + (i + 1)) := by simp
          have hne2 : Target.param k ≠ Target.param (k + (i + 1)) := by
            intro hcontra; rw [Target.param.injEq] at hcontra; omega
          have hk : k + (i + 1) = (k + 1) + i := by omega
          have hi' : i < tl.length := by simpa using Nat.lt_of_succ_lt_succ hi
          simp only [nesterov_momentumAux, planValue_cons, if_neg hne, if_neg hne2]
          rw [hk, ih (k + 1) i hi']
          simp

lemma nesterov_momentumAux_count_param (learning_rate mom : α) (j : ℕ) :
    ∀ (k : ℕ) (l : List (α × α × α)),
      ((nesterov_momentumAux learning_rate mom k l).map Prod.fst).count (Target.param j)
        = if k ≤ j ∧ j < k + l.length then 1 else 0 := by
  intro k l
  induction l generalizing k with
  | nil =>
      simp only [nesterov_momentumAux, List.map_nil, List.count_nil]
      split_ifs with hif
      · simp at hif; omega
      · rfl
  | cons hd tl ih =>
      obtain ⟨p, g, m⟩ := hd
      simp only [nesterov_momentumAux, List.map_cons, List.count_cons, ih (k + 1),
        List.length_cons]
      split_ifs <;> first | rfl | omega | (simp_all; omega) | simp_all

end NesterovLemmas

section AdagradLemmas

variable {α : Type} [Field α]

lemma adagradAux_length (sqrt : α → α) (learning_rate epsilon : α) :
    ∀ (k : ℕ) (l : List (α × α × α)),
      (adagradAux sqrt learning_rate epsilon k l).length = 2 * l.length := by
  intro k l
  induction l generalizing k with
  | nil => rfl
  | cons hd tl ih =>
      obtain ⟨p, g, a⟩ := hd
      simp only [adagradAux, List.length_cons, ih (k + 1)]
      omega

lemma adagradAux_planValue_acc (sqrt : α → α) (learning_rate epsilon : α) :
    ∀ (k i : ℕ) (l : List (α × α × α)) (hi : i < l.length),
      planValue (adagradAux sqrt learning_rate epsilon k l) (Target.acc (k + i))
        = some (l[i].2.2 + l[i].2.1 ^ 2) := by
  intro k i l
  induction l generalizing k i with
  | nil => intro hi; simp at hi
  | cons hd tl ih =>
      intro hi
      obtain ⟨p, g, a⟩ := hd
      cases i with
      | zero => simp [adagradAux, planValue_cons]
      | succ i =>
          have hne : Target.acc k ≠ Target.acc (k + (i + 1)) := by
            intro hcontra; rw [Target.acc.injEq] at hcontra; omega
          have hne2 : Target.param k ≠ Target.acc (k + (i + 1)) := by simp
          have hk : k + (i + 1) = (k + 1) + i := by omega
          have hi' : i < tl.length := by simpa using Nat.lt_of_succ_lt_succ hi
          simp only [adagradAux, planValue_cons, if_neg hne, if_neg hne2]
          rw [hk, ih (k + 1) i hi']
          simp

lemma adagradAux_planValue_param (sqrt : α → α) (learning_rate epsilon : α) :
    ∀ (k i : ℕ) (l : List (α × α × α)) (hi : i < l.length),
      planValue (adagradAux sqrt learning_rate epsilon k l) (Target.param (k + i))
        = some (l[i].1 - learning_rate * l[i].2.1
            / sqrt (l[i].2.2 + l[i].2.1 ^ 2 + epsilon)) := by
  intro k i l
  induction l generalizing k i with
  | nil => intro hi; simp at hi
  | cons hd tl ih =>
      intro hi
      obtain ⟨p, g, a⟩ := hd
      cases i with
      | zero => simp [adagradAux, planValue_cons]
      | succ i =>
          have hne : Target.acc k ≠ Target.param (k + (i + 1)) := by simp
          have hne2 : Target.param k ≠ Target.param (k + (i + 1)) := by
            intro hcontra; rw [Target.param.injEq] at hcontra; omega
          have hk : k + (i + 1) = (k + 1) + i := by omega
          have hi' : i < tl.length := by simpa using Nat.lt_of_succ_lt_succ hi
          simp only [adagradAux, planValue_cons, if_neg hne, if_neg hne2]
          rw [hk, ih (k + 1) i hi']
          simp

lemma adagradAux_count_param (sqrt : α → α) (learning_rate epsilon : α) (j : ℕ) :
    ∀ (k : ℕ) (l : List (α × α × α)),
      ((adagradAux sqrt learning_rate epsilon k l).map Prod.fst).count (Target.param j)
        = if k ≤ j ∧ j < k + l.length then 1 else 0 := by
  intro k l
  induction l generalizing k with
  | nil =>
      simp only [adagradAux, List.map_nil, List.count_nil]
      split_ifs with hif
      · simp at hif; omega
      · rfl
  | cons hd tl ih =>
      obtain ⟨p, g, a⟩ := hd
      simp only [adagradAux, List.map_cons, List.count_cons, ih (k + 1), List.length_cons]
      split_ifs <;> first | rfl | omega | (simp_all; omega) | simp_all

end AdagradLemmas

section RmspropLemmas

variable {α : Type} [Field α]

lemma rmspropAux_length (sqrt : α → α) (learning_rate rho epsilon : α) :
    ∀ (k : ℕ) (l : List (α × α × α)),
      (rmspropAux sqrt learning_rate rho epsilon k l).length = 2 * l.length := by
  intro k l
  induction l generalizing k with
  | nil => rfl
  | cons hd tl ih =>
      obtain ⟨p, g, a⟩ := hd
      simp only [rmspropAux, List.length_cons, ih (k + 1)]
      omega

lemma rmspropAux_planValue_acc (sqrt : α → α) (learning_rate rho epsilon : α) :
    ∀ (k i : ℕ) (l : List (α × α × α)) (hi : i < l.length),
      planValue (rmspropAux sqrt learning_rate rho epsilon k l) (Target.acc (k + i))
        = some (rho * l[i].2.2 + (1 - rho) * l[i].2.1 ^ 2) := by
  intro k i l
  induction l generalizing k i with
  | nil => intro hi; simp at hi
  | cons hd tl ih =>
      intro hi
      obtain ⟨p, g, a⟩ := hd
      cases i with
      | zero => simp [rmspropAux, planValue_cons]
      | succ i =>
          have hne : Target.acc k ≠ Target.acc (k + (i + 1)) := by
            intro hcontra; rw [Target.acc.injEq] at hcontra; omega
          have hne2 : Target.param k ≠ Target.acc (k + (i + 1)) := by simp
          have hk : k + (i + 1) = (k + 1) + i := by omega
          have hi' : i < tl.length := by simpa using Nat.lt_of_succ_lt_succ hi
          simp only [rmspropAux, planValue_cons, if_neg hne, if_neg hne2]
          rw [hk, ih (k + 1) i hi']
          simp

lemma rmspropAux_planValue_param (sqrt : α → α) (learning_rate rho epsilon : α) :
    ∀ (k i : ℕ) (l : List (α × α × α)) (hi : i < l.length),
      planValue (rmspropAux sqrt learning_rate rho epsilon k l) (Target.param (k + i))
        = some (l[i].1 - learning_rate * l[i].2.1
            / sqrt (rho * l[i].2.2 + (1 - rho) * l[i].2.1 ^ 2 + epsilon)) := by
  intro k i l
  induction l generalizing k i with
  | nil => intro hi; simp at hi
  | cons hd tl ih =>
      intro hi
      obtain ⟨p, g, a⟩ := hd
      cases i with
      | zero => simp [rmspropAux, planValue_cons]
      | succ i =>
          have hne : Target.acc k ≠ Target.param (k + (i + 1)) := by simp
          have hne2 : Target.param k ≠ Target.param (k + (i + 1)) := by
            intro hcontra; rw [Target.param.injEq] at hcontra; omega
          have hk : k + (i + 1) = (k + 1) + i := by omega
          have hi' : i < tl.length := by simpa using Nat.lt_of_succ_lt_succ hi
          simp only [rmspropAux, planValue_cons, if_neg hne, if_neg hne2]
          rw [hk, ih (k + 1) i hi']
          simp

lemma rmspropAux_count_param (sqrt : α → α) (learning_rate rho epsilon : α) (j : ℕ) :
    ∀ (k : ℕ) (l : List (α × α × α)),
      ((rmspropAux sqrt learning_rate rho epsilon k l).map Prod.fst).count (Target.param j)
        = if k ≤ j ∧ j < k + l.length then 1 else 0 := by
  intro k l
  induction l generalizing k with
  | nil =>
      simp only [rmspropAux, List.map_nil, List.count_nil]
      split_ifs with hif
      · simp at hif; omega
      · rfl
  | cons hd tl ih =>
      obtain ⟨p, g, a⟩ := hd
      simp only [rmspropAux, List.map_cons, List.count_cons, ih (k + 1), List.length_cons]
      split_ifs <;> first | rfl | omega | (simp_all; omega) | simp_all

end RmspropLemmas

section AdadeltaLemmas

variable {α : Type} [Field α]

lemma adadeltaAux_length (sqrt : α → α) (learning_rate rho epsilon : α) :
    ∀ (k : ℕ) (l : List (α × α × α × α)),
      (adadeltaAux sqrt learning_rate rho epsilon k l).length = 3 * l.length := by
  intro k l
  induction l generalizing k with
  | nil => rfl
  | cons hd tl ih =>
      obtain ⟨p, g, a, ad⟩ := hd
      simp only [adadeltaAux, List.length_cons, ih (k + 1)]
      omega

lemma adadeltaAux_planValue_acc (sqrt : α → α) (learning_rate rho epsilon : α) :
    ∀ (k i : ℕ) (l : List (α × α × α × α)) (hi : i < l.length),
      planValue (adadeltaAux sqrt learning_rate rho epsilon k l) (Target.acc (k + i))
        = some (rho * l[i].2.2.1 + (1 - rho) * l[i].2.1 ^ 2) := by
  intro k i l
  induction l generalizing k i with
  | nil => intro hi; simp at hi
  | cons hd tl ih =>
      intro hi
      obtain ⟨p, g, a, ad⟩ := hd
      cases i with
      | zero => simp [adadeltaAux, planValue_cons]
      | succ i =>
          have hne : Target.acc k ≠ Target.acc (k + (i + 1)) := by
            intro hcontra; rw [Target.acc.injEq] at hcontra; omega
          have hne2 : Target.param k ≠ Target.acc (k + (i + 1)) := by simp
          have hne3 : Target.accDelta k ≠ Target.acc (k + (i + 1)) := by simp
          have hk : k + (i + 1) = (k + 1) + i := by omega
          have hi' : i < tl.length := by simpa using Nat.lt_of_succ_lt_succ hi
          simp only [adadeltaAux, planValue_cons, if_neg hne, if_neg hne2, if_neg hne3]
          rw [hk, ih (k + 1) i hi']
          simp

lemma adadeltaAux_planValue_param (sqrt : α → α) (learning_rate rho epsilon : α) :
    ∀ (k i : ℕ) (l : List (α × α × α × α)) (hi : i < l.length),
      planValue (adadeltaAux sqrt learning_rate rho epsilon k l) (Target.param (k + i))
        = some (l[i].1 - learning_rate * (l[i].2.1 * sqrt (l[i].2.2.2 + epsilon)
            / sqrt (rho * l[i].2.2.1 + (1 - rho) * l[i].2.1 ^ 2 + epsilon))) := by
  intro k i l
  induction l generalizing k i with
  | nil => intro hi; simp at hi
  | cons hd tl ih =>
      intro hi
      obtain ⟨p, g, a, ad⟩ := hd
      cases i with
      | zero => simp [adadeltaAux, planValue_cons]
      | succ i =>
          have hne : Target.acc k ≠ Target.param (k + (i + 1)) := by simp
          have hne2 : Target.param k ≠ Target.param (k + (i + 1)) := by
            intro hcontra; rw [Target.param.injEq] at hcontra; omega
          have hne3 : Target.accDelta k ≠ Target.param (k + (i + 1)) := by simp
          have hk : k + (i + 1) = (k + 1) + i := by omega
          have hi' : i < tl.length := by simpa using Nat.lt_of_succ_lt_succ hi
          simp only [adadeltaAux, planValue_cons, if_neg hne, if_neg hne2, if_neg hne3]
          rw [hk, ih (k + 1) i hi']
          simp

lemma adadeltaAux_planValue_accDelta (sqrt : α → α) (learning_rate rho epsilon : α) :
    ∀ (k i : ℕ) (l : List (α × α × α × α)) (hi : i < l.length),
      planValue (adadeltaAux sqrt learning_rate rho epsilon k l) (Target.accDelta (k + i))
        = some (rho * l[i].2.2.2 + (1 - rho) * (l[i].2.1 * sqrt (l[i].2.2.2 + epsilon)
            / sqrt (rho * l[i].2.2.1 + (1 - rho) * l[i].2.1 ^ 2 + epsilon)) ^ 2) := by
  intro k i l
  induction l generalizing k i with
  | nil => intro hi; simp at hi
  | cons hd tl ih =>
      intro hi
      obtain ⟨p, g, a, ad⟩ := hd
      cases i with
      | zero => simp [adadeltaAux, planValue_cons]
      | succ i =>
          have hne : Target.acc k ≠ Target.accDelta (k + (i + 1)) := by simp
          have hne2 : Target.param k ≠ Target.accDelta (k + (i + 1)) := by simp
          have hne3 : Target.accDelta k ≠ Target.accDelta (k + (i + 1)) := by
            intro hcontra; rw [Target.accDelta.injEq] at hcontra; omega
          have hk : k + (i + 1) = (k + 1) + i := by omega
          have hi' : i < tl.length := by simpa using Nat.lt_of_succ_lt_succ hi
          simp only [adadeltaAux, planValue_cons, if_neg hne, if_neg hne2, if_neg hne3]
          rw [hk, ih (k + 1) i hi']
          simp

lemma adadeltaAux_count_param (sqrt : α → α) (learning_rate rho epsilon : α) (j : ℕ) :
    ∀ (k : ℕ) (l : List (α × α × α × α)),
      ((adadeltaAux sqrt learning_rate rho epsilon k l).map Prod.fst).count (Target.param j)
        = if k ≤ j ∧ j < k + l.length then 1 else 0 := by
  intro k l
  induction l generalizing k with
  | nil =>
      simp only [adadeltaAux, List.map_nil, List.count_nil]
      split_ifs with hif
      · simp at hif; omega
      · rfl
  | cons hd tl ih =>
      obtain ⟨p, g, a, ad⟩ := hd
      simp only [adadeltaAux, List.map_cons, List.count_cons, ih (k + 1), List.length_cons]
      split_ifs <;> first | rfl | omega | (simp_all; omega) | simp_all

end AdadeltaLemmas

/-- Value-level reduction behind claim C6: with rho = 0, the rmsprop loop
produces exactly the adagrad loop run on accumulators reset to zero. -/
lemma rmspropAux_zero_rho (sqrt : ℝ → ℝ) (learning_rate epsilon : ℝ) :
    ∀ (k : ℕ) (all_params all_grads accs : List ℝ),
      rmspropAux sqrt learning_rate 0 epsilon k
          (all_params.zip (all_grads.zip accs))
        = adagradAux sqrt learning_rate epsilon k
            (all_params.zip (all_grads.zip (List.replicate accs.length 0))) := by
  intro k all_params
  induction all_params generalizing k with
  | nil => intro all_grads accs; rfl
  | cons p ps ih =>
      intro all_grads accs
      cases all_grads with
      | nil => rfl
      | cons g gs =>
          cases accs with
          | nil => rfl
          | cons a as =>
              simp only [List.replicate_succ, List.zip_cons_cons, rmspropAux, adagradAux,
                List.length_cons, List.cons.injEq, Prod.mk.injEq]
              refine ⟨⟨trivial, by ring⟩, ⟨trivial, ?_⟩, ih (k + 1) gs as⟩
              rw [show (0 : ℝ) * a + (1 - 0) * g ^ 2 + epsilon = 0 + g ^ 2 + epsilon by ring]

/-! Claim theorems for the update rules. -/

/-- Claim C9: for every parameter, `sgd` proposes `new_param = param -
learning_rate * grad`; its plan binds no accumulator target (the rule
introduces no accumulator state and, taking no accumulator input, is
stateless between calls); with param=5.0, grad=2.0, learning_rate=0.1 the
proposed new value is 4.8. -/
theorem sgd_step_spec (learning_rate : ℝ) (all_params all_grads : List ℝ) (i j : ℕ)
    (hg : all_grads.length = all_params.length) (hi : i < all_params.length) :
    planValue (sgd learning_rate all_params all_grads) (Target.param i)
      = some (all_params.getD i 0 - learning_rate * all_grads.getD i 0)
    ∧ planValue (sgd learning_rate all_params all_grads) (Target.acc j) = none
    ∧ planValue (sgd learning_rate all_params all_grads) (Target.accDelta j) = none
    ∧ planValue (sgd (0.1 : ℝ) [5] [2]) (Target.param 0) = some 4.8 := by
  refine ⟨?_, sgdAux_planValue_acc _ _ _ _, sgdAux_planValue_accDelta _ _ _ _, ?_⟩
  · have hiz : i < (all_params.zip all_grads).length := by
      rw [List.length_zip]; omega
    have h1 := sgdAux_planValue_param learning_rate 0 i (all_params.zip all_grads) hiz
    rw [Nat.zero_add] at h1
    rw [List.getElem_zip] at h1
    rw [sgd, h1, List.getD_eq_getElem _ _ hi, List.getD_eq_getElem _ _ (by omega)]
  · norm_num [sgd, sgdAux, planValue_cons]

theorem sgd_step_spec_witness :
    planValue (sgd (0.1 : ℝ) [5, 7] [2, 3]) (Target.param 0)
      = some (([5, 7] : List ℝ).getD 0 0 - 0.1 * ([2, 3] : List ℝ).getD 0 0)
    ∧ planValue (sgd (0.1 : ℝ) [5, 7] [2, 3]) (Target.acc 1) = none
    ∧ planValue (sgd (0.1 : ℝ) [5, 7] [2, 3]) (Target.accDelta 1) = none
    ∧ planValue (sgd (0.1 : ℝ) [5] [2]) (Target.param 0) = some 4.8 :=
  sgd_step_spec 0.1 [5, 7] [2, 3] 0 1 rfl (by norm_num)

/-- Claim C7: for every parameter, `momentum` and `nesterov_momentum`
compute the same accumulator binding `v_new = momentum * v - learning_rate
* grad` from pre-step values; `momentum` proposes `new_param = param +
v_new` while `nesterov_momentum` proposes `new_param = param + momentum *
v_new - learning_rate * grad`. -/
theorem momentum_nesterov_step_spec (learning_rate mom : ℝ)
    (all_params all_grads accs : List ℝ) (i : ℕ)
    (hg : all_grads.length = all_params.length) (ha : accs.length = all_params.length)
    (hi : i < all_params.length) :
    planValue (momentum learning_rate mom all_params all_grads accs) (Target.acc i)
      = some (mom * accs.getD i 0 - learning_rate * all_grads.getD i 0)
    ∧ planValue (momentum learning_rate mom all_params all_grads accs) (Target.param i)
      = some (all_params.getD i 0
          + (mom * accs.getD i 0 - learning_rate * all_grads.getD i 0))
    ∧ planValue (nesterov_momentum learning_rate mom all_params all_grads accs)
        (Target.acc i)
      = some (mom * accs.getD i 0 - learning_rate * all_grads.getD i 0)
    ∧ planValue (nesterov_momentum learning_rate mom all_params all_grads accs)
        (Target.param i)
      = some (all_params.getD i 0
          + mom * (mom * accs.getD i 0 - learning_rate * all_grads.getD i 0)
          - learning_rate * all_grads.getD i 0) := by
  have hiz : i < (all_params.zip (all_grads.zip accs)).length := by
    simp [List.length_zip]; omega
  refine ⟨?_, ?_, ?_, ?_⟩
  · have h1 := momentumAux_planValue_acc learning_rate mom 0 i _ hiz
    rw [Nat.zero_add] at h1
    rw [momentum, h1]
    simp only [List.getElem_zip]
    rw [List.getD_eq_getElem all_grads 0 (by omega), List.getD_eq_getElem accs 0 (by omega)]
  · have h1 := momentumAux_planValue_param learning_rate mom 0 i _ hiz
    rw [Nat.zero_add] at h1
    rw [momentum, h1]
    simp only [List.getElem_zip]
    rw [List.getD_eq_getElem all_params 0 hi, List.getD_eq_getElem all_grads 0 (by omega),
      List.getD_eq_getElem accs 0 (by omega)]
  · have h1 := nesterov_momentumAux_planValue_acc learning_rate mom 0 i _ hiz
    rw [Nat.zero_add] at h1
    rw [nesterov_momentum, h1]
    simp only [List.getElem_zip]
    rw [List.getD_eq_getElem all_grads 0 (by omega), List.getD_eq_getElem accs 0 (by omega)]
  · have h1 := nesterov_momentumAux_planValue_param learning_rate mom 0 i _ hiz
    rw [Nat.zero_add] at h1
    rw [nesterov_momentum, h1]
    simp only [List.getElem_zip]
    rw [List.getD_eq_getElem all_params 0 hi, List.getD_eq_getElem all_grads 0 (by omega),
      List.getD_eq_getElem accs 0 (by omega)]

theorem momentum_nesterov_step_spec_witness :
    planValue (momentum (0.1 : ℝ) 0.9 [5] [2] [3]) (Target.acc 0)
      = some (0.9 * 3 - 0.1 * 2)
    ∧ planValue (momentum (0.1 : ℝ) 0.9 [5] [2] [3]) (Target.param 0)
      = some (5 + (0.9 * 3 - 0.1 * 2))
    ∧ planValue (nesterov_momentum (0.1 : ℝ) 0.9 [5] [2] [3]) (Target.acc 0)
      = some (0.9 * 3 - 0.1 * 2)
    ∧ planValue (nesterov_momentum (0.1 : ℝ) 0.9 [5] [2] [3]) (Target.param 0)
      = some (5 + 0.9 * (0.9 * 3 - 0.1 * 2) - 0.1 * 2) :=
  momentum_nesterov_step_spec 0.1 0.9 [5] [2] [3] 0 rfl rfl (by norm_num)

/-- Claim C8: for every parameter, `adagrad` binds `acc_new = acc + grad^2`
and `new_param = param - learning_rate * grad / sqrt(acc_new + epsilon)`;
with param=1.0, grad=2.0, learning_rate=1.0, epsilon=1e-6, acc=0 the plan
yields acc_new = 4.0 and new_param = 1.0 - 2.0 / sqrt(4.000001). -/
theorem adagrad_step_spec (sqrt : ℝ → ℝ) (learning_rate epsilon : ℝ)
    (all_params all_grads accs : List ℝ) (i : ℕ)
    (hg : all_grads.length = all_params.length) (ha : accs.length = all_params.length)
    (hi : i < all_params.length) :
    planValue (adagrad sqrt learning_rate epsilon all_params all_grads accs) (Target.acc i)
      = some (accs.getD i 0 + all_grads.getD i 0 ^ 2)
    ∧ planValue (adagrad sqrt learning_rate epsilon all_params all_grads accs)
        (Target.param i)
      = some (all_params.getD i 0 - learning_rate * all_grads.getD i 0
          / sqrt (accs.getD i 0 + all_grads.getD i 0 ^ 2 + epsilon))
    ∧ planValue (adagrad Real.sqrt 1 (1e-6) [1] [2] [0]) (Target.acc 0) = some 4
    ∧ planValue (adagrad Real.sqrt 1 (1e-6) [1] [2] [0]) (Target.param 0)
      = some (1 - 2 / Real.sqrt 4.000001) := by
  have hiz : i < (all_params.zip (all_grads.zip accs)).length := by
    simp [List.length_zip]; omega
  refine ⟨?_, ?_, ?_, ?_⟩
  · have h1 := adagradAux_planValue_acc sqrt learning_rate epsilon 0 i _ hiz
    rw [Nat.zero_add] at h1
    rw [adagrad, h1]
    simp only [List.getElem_zip]
    rw [List.getD_eq_getElem all_grads 0 (by omega), List.getD_eq_getElem accs 0 (by omega)]
  · have h1 := adagradAux_planValue_param sqrt learning_rate epsilon 0 i _ hiz
    rw [Nat.zero_add] at h1
    rw [adagrad, h1]
    simp only [List.getElem_zip]
    rw [List.getD_eq_getElem all_params 0 hi, List.getD_eq_getElem all_grads 0 (by omega),
      List.getD_eq_getElem accs 0 (by omega)]
  · have hpv : planValue (adagrad Real.sqrt 1 (1e-6) [1] [2] [0]) (Target.acc 0)
        = some ((0 : ℝ) + 2 ^ 2) := rfl
    rw [hpv]
    norm_num
  · have hpv : planValue (adagrad Real.sqrt 1 (1e-6) [1] [2] [0]) (Target.param 0)
        = some ((1 : ℝ) - 1 * 2 / Real.sqrt (0 + 2 ^ 2 + 1e-6)) := rfl
    rw [hpv]
    norm_num

theorem adagrad_step_spec_witness :
    planValue (adagrad Real.sqrt 1 (1e-6) [1] [2] [0]) (Target.acc 0)
      = some ((0 : ℝ) + 2 ^ 2)
    ∧ planValue (adagrad Real.sqrt 1 (1e-6) [1] [2] [0]) (Target.param 0)
      = some ((1 : ℝ) - 1 * 2 / Real.sqrt (0 + 2 ^ 2 + 1e-6))
    ∧ planValue (adagrad Real.sqrt 1 (1e-6) [1] [2] [0]) (Target.acc 0) = some 4
    ∧ planValue (adagrad Real.sqrt 1 (1e-6) [1] [2] [0]) (Target.param 0)
      = some (1 - 2 / Real.sqrt 4.000001) :=
  adagrad_step_spec Real.sqrt 1 (1e-6) [1] [2] [0] 0 rfl rfl (by norm_num)

/-- Claim C6: for every parameter, `rmsprop` binds `acc_new = rho * acc +
(1 - rho) * grad^2` and `new_param = param - learning_rate * grad /
sqrt(acc_new + epsilon)`; with rho = 0 the whole plan coincides with
`adagrad`'s plan on accumulators reset to zero, and the accumulator
binding reduces to `grad^2`. -/
theorem rmsprop_step_spec (sqrt : ℝ → ℝ) (learning_rate rho epsilon : ℝ)
    (all_params all_grads accs : List ℝ) (i : ℕ)
    (hg : all_grads.length = all_params.length) (ha : accs.length = all_params.length)
    (hi : i < all_params.length) :
    planValue (rmsprop sqrt learning_rate rho epsilon all_params all_grads accs)
        (Target.acc i)
      = some (rho * accs.getD i 0 + (1 - rho) * all_grads.getD i 0 ^ 2)
    ∧ planValue (rmsprop sqrt learning_rate rho epsilon all_params all_grads accs)
        (Target.param i)
      = some (all_params.getD i 0 - learning_rate * all_grads.getD i 0
          / sqrt (rho * accs.getD i 0 + (1 - rho) * all_grads.getD i 0 ^ 2 + epsilon))
    ∧ rmsprop sqrt learning_rate 0 epsilon all_params all_grads accs
        = adagrad sqrt learning_rate epsilon all_params all_grads
            (List.replicate accs.length 0)
    ∧ planValue (rmsprop sqrt learning_rate 0 epsilon all_params all_grads accs)
        (Target.acc i)
      = some (all_grads.getD i 0 ^ 2) := by
  have hiz : i < (all_params.zip (all_grads.zip accs)).length := by
    simp [List.length_zip]; omega
  refine ⟨?_, ?_, ?_, ?_⟩
  · have h1 := rmspropAux_planValue_acc sqrt learning_rate rho epsilon 0 i _ hiz
    rw [Nat.zero_add] at h1
    rw [rmsprop, h1]
    simp only [List.getElem_zip]
    rw [List.getD_eq_getElem all_grads 0 (by omega), List.getD_eq_getElem accs 0 (by omega)]
  · have h1 := rmspropAux_planValue_param sqrt learning_rate rho epsilon 0 i _ hiz
    rw [Nat.zero_add] at h1
    rw [rmsprop, h1]
    simp only [List.getElem_zip]
    rw [List.getD_eq_getElem all_params 0 hi, List.getD_eq_getElem all_grads 0 (by omega),
      List.getD_eq_getElem accs 0 (by omega)]
  · rw [rmsprop, adagrad, rmspropAux_zero_rho]
  · have h1 := rmspropAux_planValue_acc sqrt learning_rate 0 epsilon 0 i _ hiz
    rw [Nat.zero_add] at h1
    rw [rmsprop, h1]
    simp only [List.getElem_zip]
    rw [List.getD_eq_getElem all_grads 0 (by omega)]
    norm_num

theorem rmsprop_step_spec_witness :
    planValue (rmsprop Real.sqrt 1 0.5 (1e-6) [1] [2] [4]) (Target.acc 0)
      = some (0.5 * 4 + (1 - 0.5) * 2 ^ 2)
    ∧ planValue (rmsprop Real.sqrt 1 0.5 (1e-6) [1] [2] [4]) (Target.param 0)
      = some (1 - 1 * 2 / Real.sqrt (0.5 * 4 + (1 - 0.5) * 2 ^ 2 + 1e-6))
    ∧ rmsprop Real.sqrt 1 0 (1e-6) [1] [2] [4]
        = adagrad Real.sqrt 1 (1e-6) [1] [2] (List.replicate 1 0)
    ∧ planValue (rmsprop Real.sqrt 1 0 (1e-6) [1] [2] [4]) (Target.acc 0)
      = some (2 ^ 2) :=
  rmsprop_step_spec Real.sqrt 1 0.5 (1e-6) [1] [2] [4] 0 rfl rfl (by norm_num)

/-- Claim C2: for every parameter, `adadelta` binds, from pre-step state,
`acc_new = rho * acc + (1 - rho) * grad^2`; `update = grad * sqrt(acc_delta
+ epsilon) / sqrt(acc_new + epsilon)` using the OLD `acc_delta` and the NEW
`acc`; `new_param = param - learning_rate * update`; `acc_delta_new = rho *
acc_delta + (1 - rho) * update^2`; and all three targets (acc, param,
acc_delta) appear in the plan. -/
theorem adadelta_step_spec (sqrt : ℝ → ℝ) (learning_rate rho epsilon : ℝ)
    (all_params all_grads accs acc_deltas : List ℝ) (i : ℕ)
    (hg : all_grads.length = all_params.length) (ha : accs.length = all_params.length)
    (had : acc_deltas.length = all_params.length) (hi : i < all_params.length) :
    planValue (adadelta sqrt learning_rate rho epsilon all_params all_grads accs acc_deltas)
        (Target.acc i)
      = some (rho * accs.getD i 0 + (1 - rho) * all_grads.getD i 0 ^ 2)
    ∧ planValue (adadelta sqrt learning_rate rho epsilon all_params all_grads accs
        acc_deltas) (Target.param i)
      = some (all_params.getD i 0 - learning_rate
          * (all_grads.getD i 0 * sqrt (acc_deltas.getD i 0 + epsilon)
            / sqrt (rho * accs.getD i 0 + (1 - rho) * all_grads.getD i 0 ^ 2 + epsilon)))
    ∧ planValue (adadelta sqrt learning_rate rho epsilon all_params all_grads accs
        acc_deltas) (Target.accDelta i)
      = some (rho * acc_deltas.getD i 0 + (1 - rho)
          * (all_grads.getD i 0 * sqrt (acc_deltas.getD i 0 + epsilon)
            / sqrt (rho * accs.getD i 0 + (1 - rho) * all_grads.getD i 0 ^ 2 + epsilon))
          ^ 2) := by
  have hiz : i < (all_params.zip (all_grads.zip (accs.zip acc_deltas))).length := by
    simp [List.length_zip]; omega
  refine ⟨?_, ?_, ?_⟩
  · have h1 := adadeltaAux_planValue_acc sqrt learning_rate rho epsilon 0 i _ hiz
    rw [Nat.zero_add] at h1
    rw [adadelta, h1]
    simp only [List.getElem_zip]
    rw [List.getD_eq_getElem all_grads 0 (by omega), List.getD_eq_getElem accs 0 (by omega)]
  · have h1 := adadeltaAux_planValue_param sqrt learning_rate rho epsilon 0 i _ hiz
    rw [Nat.zero_add] at h1
    rw [adadelta, h1]
    simp only [List.getElem_zip]
    rw [List.getD_eq_getElem all_params 0 hi, List.getD_eq_getElem all_grads 0 (by omega),
      List.getD_eq_getElem accs 0 (by omega),
      List.getD_eq_getElem acc_deltas 0 (by omega)]
  · have h1 := adadeltaAux_planValue_accDelta sqrt learning_rate rho epsilon 0 i _ hiz
    rw [Nat.zero_add] at h1
    rw [adadelta, h1]
    simp only [List.getElem_zip]
    rw [List.getD_eq_getElem all_grads 0 (by omega), List.getD_eq_getElem accs 0 (by omega),
      List.getD_eq_getElem acc_deltas 0 (by omega)]

theorem adadelta_step_spec_witness :
    planValue (adadelta Real.sqrt 1 0.95 (1e-6) [1] [2] [0] [0]) (Target.acc 0)
      = some (0.95 * 0 + (1 - 0.95) * 2 ^ 2)
    ∧ planValue (adadelta Real.sqrt 1 0.95 (1e-6) [1] [2] [0] [0]) (Target.param 0)
      = some (1 - 1 * (2 * Real.sqrt (0 + 1e-6)
          / Real.sqrt (0.95 * 0 + (1 - 0.95) * 2 ^ 2 + 1e-6)))
    ∧ planValue (adadelta Real.sqrt 1 0.95 (1e-6) [1] [2] [0] [0]) (Target.accDelta 0)
      = some (0.95 * 0 + (1 - 0.95) * (2 * Real.sqrt (0 + 1e-6)
          / Real.sqrt (0.95 * 0 + (1 - 0.95) * 2 ^ 2 + 1e-6)) ^ 2) :=
  adadelta_step_spec Real.sqrt 1 0.95 (1e-6) [1] [2] [0] [0] 0 rfl rfl rfl (by norm_num)

/-- Claim C1: for every update rule, the plan has exactly `len(params) * k`
entries where k is the rule's state multiplicity (sgd: 1; momentum,
nesterov_momentum, adagrad, rmsprop: 2; adadelta: 3), and every parameter
appears exactly once as a target of the plan. -/
theorem update_plan_shape_spec (sqrt : ℝ → ℝ) (learning_rate mom rho epsilon : ℝ)
    (all_params all_grads accs acc_deltas : List ℝ) (i : ℕ)
    (hg : all_grads.length = all_params.length) (ha : accs.length = all_params.length)
    (had : acc_deltas.length = all_params.length) (hi : i < all_params.length) :
    (sgd learning_rate all_params all_grads).length = 1 * all_params.length
    ∧ (momentum learning_rate mom all_params all_grads accs).length
        = 2 * all_params.length
    ∧ (nesterov_momentum learning_rate mom all_params all_grads accs).length
        = 2 * all_params.length
    ∧ (adagrad sqrt learning_rate epsilon all_params all_grads accs).length
        = 2 * all_params.length
    ∧ (rmsprop sqrt learning_rate rho epsilon all_params all_grads accs).length
        = 2 * all_params.length
    ∧ (adadelta sqrt learning_rate rho epsilon all_params all_grads accs
        acc_deltas).length = 3 * all_params.length
    ∧ ((sgd learning_rate all_params all_grads).map Prod.fst).count (Target.param i) = 1
    ∧ ((momentum learning_rate mom all_params all_grads accs).map Prod.fst).count
        (Target.param i) = 1
    ∧ ((nesterov_momentum learning_rate mom all_params all_grads accs).map
        Prod.fst).count (Target.param i) = 1
    ∧ ((adagrad sqrt learning_rate epsilon all_params all_grads accs).map
        Prod.fst).count (Target.param i) = 1
    ∧ ((rmsprop sqrt learning_rate rho epsilon all_params all_grads accs).map
        Prod.fst).count (Target.param i) = 1
    ∧ ((adadelta sqrt learning_rate rho epsilon all_params all_grads accs
        acc_deltas).map Prod.fst).count (Target.param i) = 1 := by
  have h2 : (all_params.zip all_grads).length = all_params.length := by
    rw [List.length_zip]; omega
  have h3 : (all_params.zip (all_grads.zip accs)).length = all_params.length := by
    simp only [List.length_zip]; omega
  have h4 : (all_params.zip (all_grads.zip (accs.zip acc_deltas))).length
      = all_params.length := by
    simp only [List.length_zip]; omega
  have hc2 : 0 ≤ i ∧ i < 0 + (all_params.zip all_grads).length := by omega
  have hc3 : 0 ≤ i ∧ i < 0 + (all_params.zip (all_grads.zip accs)).length := by omega
  have hc4 : 0 ≤ i ∧ i
      < 0 + (all_params.zip (all_grads.zip (accs.zip acc_deltas))).length := by omega
  refine ⟨?_, ?_, ?_, ?_, ?_, ?_, ?_, ?_, ?_, ?_, ?_, ?_⟩
  · rw [sgd, sgdAux_length, h2]; omega
  · rw [momentum, momentumAux_length, h3]
  · rw [nesterov_momentum, nesterov_momentumAux_length, h3]
  · rw [adagrad, adagradAux_length, h3]
  · rw [rmsprop, rmspropAux_length, h3]
  · rw [adadelta, adadeltaAux_length, h4]
  · rw [sgd, sgdAux_count_param, if_pos hc2]
  · rw [momentum, momentumAux_count_param, if_pos hc3]
  · rw [nesterov_momentum, nesterov_momentumAux_count_param, if_pos hc3]
  · rw [adagrad, adagradAux_count_param, if_pos hc3]
  · rw [rmsprop, rmspropAux_count_param, if_pos hc3]
  · rw [adadelta, adadeltaAux_count_param, if_pos hc4]

theorem update_plan_shape_spec_witness :
    (sgd (0.1 : ℝ) [1, 2] [3, 4]).length = 1 * 2
    ∧ (momentum (0.1 : ℝ) 0.9 [1, 2] [3, 4] [5, 6]).length = 2 * 2
    ∧ (nesterov_momentum (0.1 : ℝ) 0.9 [1, 2] [3, 4] [5, 6]).length = 2 * 2
    ∧ (adagrad Real.sqrt (0.1 : ℝ) (1e-6) [1, 2] [3, 4] [5, 6]).length = 2 * 2
    ∧ (rmsprop Real.sqrt (0.1 : ℝ) 0.5 (1e-6) [1, 2] [3, 4] [5, 6]).length = 2 * 2
    ∧ (adadelta Real.sqrt (0.1 : ℝ) 0.5 (1e-6) [1, 2] [3, 4] [5, 6] [7, 8]).length
        = 3 * 2
    ∧ ((sgd (0.1 : ℝ) [1, 2] [3, 4]).map Prod.fst).count (Target.param 1) = 1
    ∧ ((momentum (0.1 : ℝ) 0.9 [1, 2] [3, 4] [5, 6]).map Prod.fst).count
        (Target.param 1) = 1
    ∧ ((nesterov_momentum (0.1 : ℝ) 0.9 [1, 2] [3, 4] [5, 6]).map Prod.fst).count
        (Target.param 1) = 1
    ∧ ((adagrad Real.sqrt (0.1 : ℝ) (1e-6) [1, 2] [3, 4] [5, 6]).map Prod.fst).count
        (Target.param 1) = 1
    ∧ ((rmsprop Real.sqrt (0.1 : ℝ) 0.5 (1e-6) [1, 2] [3, 4] [5, 6]).map
        Prod.fst).count (Target.param 1) = 1
    ∧ ((adadelta Real.sqrt (0.1 : ℝ) 0.5 (1e-6) [1, 2] [3, 4] [5, 6] [7, 8]).map
        Prod.fst).count (Target.param 1) = 1 :=
  update_plan_shape_spec Real.sqrt 0.1 0.9 0.5 (1e-6) [1, 2] [3, 4] [5, 6] [7, 8] 1
    rfl rfl rfl (by norm_num)

/-- Claim C5 (amended): every accumulator introduced by momentum,
nesterov_momentum, adagrad, rmsprop or adadelta (all five create the same
per-parameter zero arrays) is initialized to exactly all zeros and has the
same shape as its corresponding parameter; its dtype is the configured
`theano.config.floatX` (which equals the parameter's dtype exactly when the
parameter itself is a floatX array). -/
theorem accumulator_init_spec (floatX : String) (all_params : List NDArray) (i : ℕ)
    (hi : i < all_params.length) :
    momentumAccs floatX all_params = nesterov_momentumAccs floatX all_params
    ∧ momentumAccs floatX all_params = adagradAccs floatX all_params
    ∧ momentumAccs floatX all_params = rmspropAccs floatX all_params
    ∧ momentumAccs floatX all_params = adadeltaAccs floatX all_params
    ∧ momentumAccs floatX all_params = adadeltaDeltaAccs floatX all_params
    ∧ (momentumAccs floatX all_params).length = all_params.length
    ∧ ((momentumAccs floatX all_params).getD i (npZeros [] "")).shape
        = (all_params.getD i (npZeros [] "")).shape
    ∧ ((momentumAccs floatX all_params).getD i (npZeros [] "")).dtype = floatX
    ∧ ((momentumAccs floatX all_params).getD i (npZeros [] "")).data
        = List.replicate (arraySize (all_params.getD i (npZeros [] "")).shape) 0 := by
  have hmap : (momentumAccs floatX all_params).getD i (npZeros [] "")
      = npZeros (all_params.getD i (npZeros [] "")).shape floatX := by
    have hlen : i < (momentumAccs floatX all_params).length := by
      simp [momentumAccs]; omega
    rw [List.getD_eq_getElem _ _ hlen, List.getD_eq_getElem _ _ hi]
    simp [momentumAccs, initAccumulator]
  refine ⟨rfl, rfl, rfl, rfl, rfl, by simp [momentumAccs], ?_, ?_, ?_⟩
  · rw [hmap]; rfl
  · rw [hmap]; rfl
  · rw [hmap]; rfl

theorem accumulator_init_spec_witness :
    momentumAccs "float64" [NDArray.mk [2, 3] "float64" [1, 2, 3, 4, 5, 6]]
      = nesterov_momentumAccs "float64" [NDArray.mk [2, 3] "float64" [1, 2, 3, 4, 5, 6]]
    ∧ momentumAccs "float64" [NDArray.mk [2, 3] "float64" [1, 2, 3, 4, 5, 6]]
      = adagradAccs "float64" [NDArray.mk [2, 3] "float64" [1, 2, 3, 4, 5, 6]]
    ∧ momentumAccs "float64" [NDArray.mk [2, 3] "float64" [1, 2, 3, 4, 5, 6]]
      = rmspropAccs "float64" [NDArray.mk [2, 3] "float64" [1, 2, 3, 4, 5, 6]]
    ∧ momentumAccs "float64" [NDArray.mk [2, 3] "float64" [1, 2, 3, 4, 5, 6]]
      = adadeltaAccs "float64" [NDArray.mk [2, 3] "float64" [1, 2, 3, 4, 5, 6]]
    ∧ momentumAccs "float64" [NDArray.mk [2, 3] "float64" [1, 2, 3, 4, 5, 6]]
      = adadeltaDeltaAccs "float64" [NDArray.mk [2, 3] "float64" [1, 2, 3, 4, 5, 6]]
    ∧ (momentumAccs "float64" [NDArray.mk [2, 3] "float64" [1, 2, 3, 4, 5, 6]]).length = 1
    ∧ ((momentumAccs "float64" [NDArray.mk [2, 3] "float64"
        [1, 2, 3, 4, 5, 6]]).getD 0 (npZeros [] "")).shape = [2, 3]
    ∧ ((momentumAccs "float64" [NDArray.mk [2, 3] "float64"
        [1, 2, 3, 4, 5, 6]]).getD 0 (npZeros [] "")).dtype = "float64"
    ∧ ((momentumAccs "float64" [NDArray.mk [2, 3] "float64"
        [1, 2, 3, 4, 5, 6]]).getD 0 (npZeros [] "")).data
      = List.replicate (arraySize [2, 3]) 0 :=
  accumulator_init_spec "float64" [NDArray.mk [2, 3] "float64" [1, 2, 3, 4, 5, 6]] 0
    (by norm_num)

/-! Lemmas for the norm-constraint rescaling claim: the rescale factor is
constant on each slice (the set of indices agreeing outside `sum_over`), so
it scales the slice norm linearly. -/

lemma sumSq_nonneg (s : List ℕ) (tensor_var : Idx s → ℝ) (sum_over : List ℕ)
    (idx : Idx s) : 0 ≤ sumSq s tensor_var sum_over idx :=
  Finset.sum_nonneg fun j _ => sq_nonneg (tensor_var j)

lemma norms_nonneg (s : List ℕ) (tensor_var : Idx s → ℝ) (sum_over : List ℕ)
    (idx : Idx s) : 0 ≤ norms Real.sqrt s tensor_var sum_over idx :=
  Real.sqrt_nonneg _

lemma sumSq_congr_of_agree (s : List ℕ) (tensor_var : Idx s → ℝ) (sum_over : List ℕ)
    (idx j₀ : Idx s) (hj : ∀ i : Fin s.length, (i : ℕ) ∉ sum_over → j₀ i = idx i) :
    sumSq s tensor_var sum_over j₀ = sumSq s tensor_var sum_over idx := by
  unfold sumSq
  congr 1
  apply Finset.filter_congr
  intro x _
  constructor
  · intro h i hi
    rw [h i hi, hj i hi]
  · intro h i hi
    rw [h i hi, hj i hi]

lemma norms_congr_of_agree (s : List ℕ) (tensor_var : Idx s → ℝ) (sum_over : List ℕ)
    (idx j₀ : Idx s) (hj : ∀ i : Fin s.length, (i : ℕ) ∉ sum_over → j₀ i = idx i) :
    norms Real.sqrt s tensor_var sum_over j₀
      = norms Real.sqrt s tensor_var sum_over idx := by
  unfold norms
  rw [sumSq_congr_of_agree s tensor_var sum_over idx j₀ hj]

lemma tensor_eq_zero_of_sumSq_eq_zero (s : List ℕ) (tensor_var : Idx s → ℝ)
    (sum_over : List ℕ) (idx : Idx s) (h : sumSq s tensor_var sum_over idx = 0) :
    tensor_var idx = 0 := by
  have hidx : idx ∈ Finset.univ.filter
      (fun j : Idx s => ∀ i : Fin s.length, (i : ℕ) ∉ sum_over → j i = idx i) :=
    Finset.mem_filter.mpr ⟨Finset.mem_univ _, fun i _ => rfl⟩
  have hz := (Finset.sum_eq_zero_iff_of_nonneg
    (fun j _ => sq_nonneg (tensor_var j))).mp h idx hidx
  exact sq_eq_zero_iff.mp hz

lemma sumSq_constrainedOutput (s : List ℕ) (tensor_var : Idx s → ℝ) (sum_over : List ℕ)
    (max_norm epsilon : ℝ) (idx : Idx s) :
    sumSq s (constrainedOutput Real.sqrt s tensor_var max_norm epsilon sum_over)
        sum_over idx
      = (clip (norms Real.sqrt s tensor_var sum_over idx) 0 max_norm
          / (epsilon + norms Real.sqrt s tensor_var sum_over idx)) ^ 2
        * sumSq s tensor_var sum_over idx := by
  rw [sumSq, sumSq, Finset.mul_sum]
  apply Finset.sum_congr rfl
  intro j hj
  rw [Finset.mem_filter] at hj
  rw [constrainedOutput]
  rw [norms_congr_of_agree s tensor_var sum_over idx j hj.2]
  ring

lemma norms_constrainedOutput (s : List ℕ) (tensor_var : Idx s → ℝ) (sum_over : List ℕ)
    (max_norm epsilon : ℝ) (idx : Idx s) :
    norms Real.sqrt s (constrainedOutput Real.sqrt s tensor_var max_norm epsilon sum_over)
        sum_over idx
      = |clip (norms Real.sqrt s tensor_var sum_over idx) 0 max_norm
          / (epsilon + norms Real.sqrt s tensor_var sum_over idx)|
        * norms Real.sqrt s tensor_var sum_over idx := by
  rw [norms, sumSq_constrainedOutput, Real.sqrt_mul (sq_nonneg _), Real.sqrt_sq_eq_abs]
  rfl

lemma constrainedOutput_eq_self_of_le (s : List ℕ) (tensor_var : Idx s → ℝ)
    (sum_over : List ℕ) (max_norm : ℝ) (idx : Idx s)
    (hle : norms Real.sqrt s tensor_var sum_over idx ≤ max_norm) :
    constrainedOutput Real.sqrt s tensor_var max_norm 0 sum_over idx = tensor_var idx := by
  rw [constrainedOutput]
  by_cases hn : norms Real.sqrt s tensor_var sum_over idx = 0
  · have hT : tensor_var idx = 0 :=
      tensor_eq_zero_of_sumSq_eq_zero s tensor_var sum_over idx
        ((Real.sqrt_eq_zero (sumSq_nonneg s tensor_var sum_over idx)).mp hn)
    rw [hT]
    ring
  · rw [clip, max_eq_left (norms_nonneg s tensor_var sum_over idx), min_eq_left hle,
      zero_add, div_self hn, mul_one]

lemma norms_constrainedOutput_eq_of_lt (s : List ℕ) (tensor_var : Idx s → ℝ)
    (sum_over : List ℕ) (max_norm : ℝ) (idx : Idx s) (h0 : 0 ≤ max_norm)
    (hlt : max_norm < norms Real.sqrt s tensor_var sum_over idx) :
    norms Real.sqrt s (constrainedOutput Real.sqrt s tensor_var max_norm 0 sum_over)
        sum_over idx = max_norm := by
  have hpos : 0 < norms Real.sqrt s tensor_var sum_over idx := lt_of_le_of_lt h0 hlt
  rw [norms_constrainedOutput, clip, max_eq_left (norms_nonneg s tensor_var sum_over idx),
    min_eq_right (le_of_lt hlt), zero_add,
    abs_of_nonneg (div_nonneg h0 (le_of_lt hpos)),
    div_mul_cancel₀ max_norm (ne_of_gt hpos)]

lemma norms_constrainedOutput_le (s : List ℕ) (tensor_var : Idx s → ℝ)
    (sum_over : List ℕ) (max_norm : ℝ) (idx : Idx s) (h0 : 0 ≤ max_norm) :
    norms Real.sqrt s (constrainedOutput Real.sqrt s tensor_var max_norm 0 sum_over)
        sum_over idx ≤ max_norm := by
  by_cases hlt : max_norm < norms Real.sqrt s tensor_var sum_over idx
  · rw [norms_constrainedOutput_eq_of_lt s tensor_var sum_over max_norm idx h0 hlt]
  · push_neg at hlt
    rw [norms_constrainedOutput, clip,
      max_eq_left (norms_nonneg s tensor_var sum_over idx), min_eq_left hlt, zero_add]
    by_cases hn : norms Real.sqrt s tensor_var sum_over idx = 0
    · rw [hn]
      simpa using h0
    · rw [div_self hn]
      simpa using hlt

lemma constrainedOutput_idem (s : List ℕ) (tensor_var : Idx s → ℝ) (sum_over : List ℕ)
    (max_norm : ℝ) (h0 : 0 ≤ max_norm) :
    constrainedOutput Real.sqrt s
        (constrainedOutput Real.sqrt s tensor_var max_norm 0 sum_over)
        max_norm 0 sum_over
      = constrainedOutput Real.sqrt s tensor_var max_norm 0 sum_over := by
  funext idx
  exact constrainedOutput_eq_self_of_le s _ sum_over max_norm idx
    (norms_constrainedOutput_le s tensor_var sum_over max_norm idx h0)

instance uniqueIdxNil : Unique (Idx ([] : List ℕ)) where
  default := fun i => i.elim0
  uniq := fun _ => funext fun i => i.elim0

lemma sumSq_nil_shape (tensor_var : Idx ([] : List ℕ) → ℝ) (idx : Idx ([] : List ℕ)) :
    sumSq [] tensor_var [] idx = tensor_var idx ^ 2 := by
  rw [sumSq]
  have huniv : (Finset.univ.filter (fun j : Idx ([] : List ℕ) =>
      ∀ i : Fin (List.length ([] : List ℕ)), (i : ℕ) ∉ ([] : List ℕ) → j i = idx i))
      = Finset.univ := by
    apply Finset.filter_true_of_mem
    intro x _
    intro i
    exact i.elim0
  rw [huniv, Fintype.sum_unique]
  rw [Subsingleton.elim default idx]

/-- Claim C4: `norm_constraint` returns `tensor * (clip(norm, 0, max_norm)
/ (epsilon + norm))` with `norm = sqrt(sum(tensor^2, axes,
keepdims=True))`; consequently, with epsilon = 0, a slice whose norm
exceeds `max_norm` is rescaled so its output norm equals `max_norm`, a
slice already within `max_norm` is returned unchanged, and applying the
transform twice with the same `max_norm` equals applying it once. -/
theorem norm_constraint_rescale_spec (s : List ℕ) (tensor_var : Idx s → ℝ)
    (sum_over : List ℕ) (max_norm epsilon : ℝ) (idx : Idx s) :
    constrainedOutput Real.sqrt s tensor_var max_norm epsilon sum_over idx
      = tensor_var idx
        * (clip (Real.sqrt (sumSq s tensor_var sum_over idx)) 0 max_norm
          / (epsilon + Real.sqrt (sumSq s tensor_var sum_over idx)))
    ∧ (0 ≤ max_norm → max_norm < norms Real.sqrt s tensor_var sum_over idx →
        norms Real.sqrt s (constrainedOutput Real.sqrt s tensor_var max_norm 0 sum_over)
          sum_over idx = max_norm)
    ∧ (norms Real.sqrt s tensor_var sum_over idx ≤ max_norm →
        constrainedOutput Real.sqrt s tensor_var max_norm 0 sum_over idx = tensor_var idx)
    ∧ (0 ≤ max_norm →
        constrainedOutput Real.sqrt s
            (constrainedOutput Real.sqrt s tensor_var max_norm 0 sum_over)
            max_norm 0 sum_over
          = constrainedOutput Real.sqrt s tensor_var max_norm 0 sum_over) :=
  ⟨rfl,
   norms_constrainedOutput_eq_of_lt s tensor_var sum_over max_norm idx,
   constrainedOutput_eq_self_of_le s tensor_var sum_over max_norm idx,
   constrainedOutput_idem s tensor_var sum_over max_norm⟩

theorem norm_constraint_rescale_spec_witness :
    ((0 : ℝ) ≤ 10 ∧ 10 < norms Real.sqrt [] (fun _ => (20 : ℝ)) [] default
      ∧ norms Real.sqrt []
          (constrainedOutput Real.sqrt [] (fun _ => (20 : ℝ)) 10 0 []) [] default = 10)
    ∧ (norms Real.sqrt [] (fun _ => (6 : ℝ)) [] default ≤ 10
      ∧ constrainedOutput Real.sqrt [] (fun _ => (6 : ℝ)) 10 0 [] default = 6)
    ∧ constrainedOutput Real.sqrt []
        (constrainedOutput Real.sqrt [] (fun _ => (20 : ℝ)) 10 0 []) 10 0 []
      = constrainedOutput Real.sqrt [] (fun _ => (20 : ℝ)) 10 0 [] := by
  have h20 : norms Real.sqrt [] (fun _ => (20 : ℝ)) [] default = 20 := by
    rw [norms, sumSq_nil_shape]
    exact Real.sqrt_sq (by norm_num)
  have h6 : norms Real.sqrt [] (fun _ => (6 : ℝ)) [] default = 6 := by
    rw [norms, sumSq_nil_shape]
    exact Real.sqrt_sq (by norm_num)
  refine ⟨⟨by norm_num, by rw [h20]; norm_num, ?_⟩, ⟨by rw [h6]; norm_num, ?_⟩, ?_⟩
  · exact (norm_constraint_rescale_spec [] (fun _ => (20 : ℝ)) [] 10 0 default).2.1
      (by norm_num) (by rw [h20]; norm_num)
  · exact (norm_constraint_rescale_spec [] (fun _ => (6 : ℝ)) [] 10 0 default).2.2.1
      (by rw [h6]; norm_num)
  · exact (norm_constraint_rescale_spec [] (fun _ => (20 : ℝ)) [] 10 0 default).2.2.2
      (by norm_num)

/-- Claim C3: with `norm_axes` omitted, `norm_constraint` reduces over axis
0 for rank 2, over all axes except axis 0 for ranks 3, 4 and 5, and for any
other rank fails with the unsupported-dimensionality error whose message
contains the actual rank. -/
theorem norm_constraint_axis_spec (sqrt : ℝ → ℝ) (s : List ℕ) (tensor_var : Idx s → ℝ)
    (max_norm epsilon : ℝ) :
    (s.length = 2 →
      norm_constraint sqrt s tensor_var max_norm none epsilon
        = .ok (constrainedOutput sqrt s tensor_var max_norm epsilon [0]))
    ∧ (s.length = 3 ∨ s.length = 4 ∨ s.length = 5 →
      norm_constraint sqrt s tensor_var max_norm none epsilon
        = .ok (constrainedOutput sqrt s tensor_var max_norm epsilon
            (List.range' 1 (s.length - 1)))
      ∧ List.range' 1 (s.length - 1) = (List.range s.length).filter (fun a => a ≠ 0))
    ∧ (s.length ≠ 2 → s.length ≠ 3 → s.length ≠ 4 → s.length ≠ 5 →
      norm_constraint sqrt s tensor_var max_norm none epsilon
        = .error ("Unsupported tensor dimensionality " ++ toString s.length ++ "."
            ++ "Must specify `norm_axes`")
      ∧ (toString s.length).data <:+: ("Unsupported tensor dimensionality "
          ++ toString s.length ++ "." ++ "Must specify `norm_axes`").data) := by
  refine ⟨?_, ?_, ?_⟩
  · intro h
    simp [norm_constraint, sumOverFor, h]
  · intro h
    constructor
    · rcases h with h | h | h <;> simp [norm_constraint, sumOverFor, h]
    · rcases h with h | h | h <;> rw [h] <;> decide
  · intro h2 h3 h4 h5
    constructor
    · rw [norm_constraint]
      rw [show sumOverFor none s.length = Except.error ("Unsupported tensor dimensionality "
          ++ toString s.length ++ "." ++ "Must specify `norm_axes`") from ?_]
      · rw [sumOverFor]
        rw [if_neg h2, if_neg (by simp [h3, h4, h5])]
    · exact ⟨("Unsupported tensor dimensionality ").data,
        ("." ++ "Must specify `norm_axes`").data, by simp [String.data_append]⟩

theorem norm_constraint_axis_spec_witness :
    (norm_constraint Real.sqrt [4, 6] (fun _ => (1 : ℝ)) 10 none (1e-7)
      = .ok (constrainedOutput Real.sqrt [4, 6] (fun _ => (1 : ℝ)) 10 (1e-7) [0]))
    ∧ (norm_constraint Real.sqrt [2, 3, 4] (fun _ => (1 : ℝ)) 10 none (1e-7)
        = .ok (constrainedOutput Real.sqrt [2, 3, 4] (fun _ => (1 : ℝ)) 10 (1e-7)
            (List.range' 1 2))
      ∧ List.range' 1 2 = (List.range 3).filter (fun a => a ≠ 0))
    ∧ (norm_constraint Real.sqrt [7] (fun _ => (1 : ℝ)) 10 none (1e-7)
        = .error ("Unsupported tensor dimensionality " ++ toString (1 : ℕ) ++ "."
            ++ "Must specify `norm_axes`")
      ∧ (toString (1 : ℕ)).data <:+: ("Unsupported tensor dimensionality "
          ++ toString (1 : ℕ) ++ "." ++ "Must specify `norm_axes`").data) :=
  ⟨(norm_constraint_axis_spec Real.sqrt [4, 6] (fun _ => (1 : ℝ)) 10 (1e-7)).1 rfl,
   (norm_constraint_axis_spec Real.sqrt [2, 3, 4] (fun _ => (1 : ℝ)) 10 (1e-7)).2.1
     (Or.inl rfl),
   (norm_constraint_axis_spec Real.sqrt [7] (fun _ => (1 : ℝ)) 10 (1e-7)).2.2
     (by decide) (by decide) (by decide) (by decide)⟩

/-- Claim C10: with `norm_axes` supplied, `norm_constraint` never fails for
any tensor rank (the rank dispatch and its error branch are bypassed) and
the norm sums over exactly the axes of `tuple(norm_axes)`. -/
theorem norm_constraint_explicit_axes_spec (sqrt : ℝ → ℝ) (s : List ℕ)
    (tensor_var : Idx s → ℝ) (max_norm epsilon : ℝ) (norm_axes : List ℕ) (idx : Idx s) :
    norm_constraint sqrt s tensor_var max_norm (some norm_axes) epsilon
      = .ok (constrainedOutput sqrt s tensor_var max_norm epsilon norm_axes)
    ∧ constrainedOutput sqrt s tensor_var max_norm epsilon norm_axes idx
      = tensor_var idx * (clip (sqrt (sumSq s tensor_var norm_axes idx)) 0 max_norm
          / (epsilon + sqrt (sumSq s tensor_var norm_axes idx))) :=
  ⟨rfl, rfl⟩

/-- Claim C5, counterexample to the dtype clause as stated: the accumulator
is created with `dtype=theano.config.floatX` regardless of the parameter's
own dtype, so for a float32 parameter under floatX = float64 the
accumulator's dtype differs from the parameter's. -/
theorem accumulator_init_dtype_counterexample :
    ((momentumAccs "float64" [NDArray.mk [2] "float32" [0, 0]]).getD 0
        (npZeros [] "")).dtype
      ≠ (NDArray.mk [2] "float32" [0, 0]).dtype := by
  decide

end Lasagne
